import Mathlib

/-!
Shallow embedding of the backtesting core of `main.py`:
the trade simulator `simulate_trades_with_risk`, the indicator
computation `compute_indicators` / `compute_group_indicators`, and the
signal evaluator `evaluate_signals`.

Modelling conventions:
- Python floats are modelled as exact rationals (`ℚ`); the spec's numeric
  semantics section states all percentage/PnL arithmetic is performed at
  full precision, which the rational model captures exactly.
- Python's `round(x, d)` (round-half-to-even to `d` decimal places) is
  modelled by `roundTo d`.
- Timestamps are epoch seconds (`ℤ`); `(a - b).total_seconds()` is plain
  integer subtraction.
- The pandas DataFrame of signalled bars is a `List Bar`; a row's fields
  `timestamp`, `ticker`, `signal`, `close` are the fields of `Bar`.
- The Python dict `held_positions` is an association list
  `List (String × Position)`; `ticker in held_positions` is
  `List.lookup`, `del held_positions[ticker]` is `List.eraseP`.
- `pd.DataFrame(trades).sort_values(by='entry_datetime')` raises a
  `KeyError` when `trades` is empty (the empty frame has no
  `entry_datetime` column), so the simulator returns
  `Except String (List Trade)`.
-/

/-- Round-half-to-even to the nearest integer, the rounding mode of
Python's builtin `round`. -/
def roundHalfEven (x : ℚ) : ℤ :=
  let n := ⌊x⌋
  let frac := x - n
  if frac < 1 / 2 then n
  else if 1 / 2 < frac then n + 1
  else if n % 2 = 0 then n else n + 1

/-- Python's `round(x, d)`: round-half-to-even to `d` decimal places. -/
def roundTo (d : ℕ) (x : ℚ) : ℚ :=
  (roundHalfEven (x * 10 ^ d) : ℚ) / 10 ^ d

/-- One signalled bar: a row of the DataFrame consumed by
`simulate_trades_with_risk` (columns `timestamp`, `ticker`, `signal`,
`close`). -/
structure Bar where
  timestamp : ℤ
  ticker : String
  signal : ℤ
  close : ℚ
deriving DecidableEq, Repr

/-- An open position, the value stored in `held_positions[ticker]`. -/
structure Position where
  entry_price : ℚ
  entry_datetime : ℤ
  cash : ℚ
  shares : ℚ
deriving DecidableEq, Repr

/-- An emitted closed-trade record, the dict appended to `trades`.
Fields hold exactly what the code stores: prices, `return_pct` and
`shares` rounded to 4 decimals, `pnl` and `allocated_cash` rounded to 2,
`holding_ticks` unrounded. -/
structure Trade where
  ticker : String
  entry_datetime : ℤ
  exit_datetime : ℤ
  entry_price : ℚ
  exit_price : ℚ
  return_pct : ℚ
  pnl : ℚ
  allocated_cash : ℚ
  shares : ℚ
  holding_ticks : ℚ
  exit_reason : String
deriving DecidableEq, Repr

/-- The mutable state of the simulation loop. -/
structure SimState where
  held_positions : List (String × Position)
  trades : List Trade
  cash : ℚ
deriving DecidableEq, Repr

/-- The exit condition of the simulator: sell signal, stop loss hit, or
take profit hit (`signal == -1 or stop_loss_hit or take_profit_hit`). -/
def exitFires (stop_loss_pct take_profit_pct : ℚ) (position : Position) (row : Bar) : Prop :=
  let pnl_pct := (row.close - position.entry_price) / position.entry_price
  row.signal = -1 ∨ pnl_pct ≤ -stop_loss_pct ∨ take_profit_pct ≤ pnl_pct

instance (slp tpp : ℚ) (position : Position) (row : Bar) :
    Decidable (exitFires slp tpp position row) := by
  unfold exitFires; exact inferInstance

/-- The trade record appended when an exit fires, field by field the
dict literal of the source. -/
def exitTrade (stop_loss_pct : ℚ) (position : Position) (row : Bar) : Trade :=
  let pnl_pct := (row.close - position.entry_price) / position.entry_price
  let stop_loss_hit := pnl_pct ≤ -stop_loss_pct
  let pnl := pnl_pct * position.cash
  { ticker := row.ticker
    entry_datetime := position.entry_datetime
    exit_datetime := row.timestamp
    entry_price := roundTo 4 position.entry_price
    exit_price := roundTo 4 row.close
    return_pct := roundTo 4 (pnl_pct * 100)
    pnl := roundTo 2 pnl
    allocated_cash := roundTo 2 position.cash
    shares := roundTo 4 position.shares
    holding_ticks := ((row.timestamp - position.entry_datetime : ℤ) : ℚ) / (15 * 60)
    exit_reason :=
      if row.signal = -1 then "Strategy logic"
      else if stop_loss_hit then "Stop loss raised"
      else "Stop gain raised" }

/-- The exit block of the loop body (`if ticker in held_positions: ...`):
close the position when a sell signal, stop loss, or take profit fires,
appending the trade record and releasing `allocated_cash + pnl` (the
unrounded pnl) back into `cash`. -/
def exitPhase (stop_loss_pct take_profit_pct : ℚ) (st : SimState) (row : Bar) : SimState :=
  match st.held_positions.lookup row.ticker with
  | some position =>
      if exitFires stop_loss_pct take_profit_pct position row then
        let pnl_pct := (row.close - position.entry_price) / position.entry_price
        let pnl := pnl_pct * position.cash
        { held_positions := st.held_positions.eraseP (fun p => p.1 == row.ticker)
          trades := st.trades ++ [exitTrade stop_loss_pct position row]
          cash := st.cash + position.cash + pnl }
      else st
  | none => st

/-- The buy block of the loop body: enter only if the signal is a buy,
the ticker is not already held, and cash is available; the new position
takes the entirety of `cash` (`cash_per_position = cash`, all-in
allocation) and `cash -= cash_per_position`. -/
def entryPhase (st : SimState) (row : Bar) : SimState :=
  if row.signal = 1 ∧ (st.held_positions.lookup row.ticker) = none ∧ 0 < st.cash then
    let cash_per_position := st.cash
    let position_size := cash_per_position / row.close
    { st with
      held_positions :=
        (row.ticker,
          { entry_price := row.close
            entry_datetime := row.timestamp
            cash := cash_per_position
            shares := position_size }) :: st.held_positions
      cash := st.cash - cash_per_position }
  else st

/-- The body of the simulation loop of `simulate_trades_with_risk`:
exit check first, then buy check, on one row. -/
def processBar (stop_loss_pct take_profit_pct : ℚ) (st : SimState) (row : Bar) : SimState :=
  entryPhase (exitPhase stop_loss_pct take_profit_pct st row) row

/-- Lexicographic order on `(timestamp, ticker)`, the sort key of
`df.sort_values(['timestamp', 'ticker'])`. -/
def barLe (a b : Bar) : Prop :=
  a.timestamp < b.timestamp ∨ (a.timestamp = b.timestamp ∧ a.ticker ≤ b.ticker)

instance : DecidableRel barLe := fun a b => by
  unfold barLe; exact inferInstance

instance : IsTotal Bar barLe where
  total a b := by
    unfold barLe
    rcases lt_trichotomy a.timestamp b.timestamp with h | h | h
    · exact Or.inl (Or.inl h)
    · rcases le_total a.ticker b.ticker with h2 | h2
      · exact Or.inl (Or.inr ⟨h, h2⟩)
      · exact Or.inr (Or.inr ⟨h.symm, h2⟩)
    · exact Or.inr (Or.inl h)

instance : IsTrans Bar barLe where
  trans a b c hab hbc := by
    unfold barLe at *
    rcases hab with h1 | ⟨h1, h1'⟩ <;> rcases hbc with h2 | ⟨h2, h2'⟩
    · exact Or.inl (h1.trans h2)
    · exact Or.inl (h2 ▸ h1)
    · exact Or.inl (h1 ▸ h2)
    · exact Or.inr ⟨h1.trans h2, h1'.trans h2'⟩

/-- The sort `df.sort_values(['timestamp', 'ticker'])`. -/
def sortBars (df : List Bar) : List Bar :=
  List.insertionSort barLe df

/-- Order on trades by `entry_datetime`, the final ledger sort key. -/
def tradeLe (a b : Trade) : Prop := a.entry_datetime ≤ b.entry_datetime

instance : DecidableRel tradeLe := fun a b => by
  unfold tradeLe; exact inferInstance

instance : IsTotal Trade tradeLe where
  total a b := le_total a.entry_datetime b.entry_datetime

instance : IsTrans Trade tradeLe where
  trans _ _ _ hab hbc := le_trans hab hbc

/-- The final sort `.sort_values(by='entry_datetime')`. -/
def sortTrades (trades : List Trade) : List Trade :=
  List.insertionSort tradeLe trades

/-- The initial loop state: empty dict, empty trade list,
`cash = initial_cash`. -/
def initState (initial_cash : ℚ) : SimState :=
  { held_positions := [], trades := [], cash := initial_cash }

/-- The state after the simulation loop of `simulate_trades_with_risk`
has consumed the whole (sorted) bar stream. -/
def runState (stop_loss_pct take_profit_pct initial_cash : ℚ) (df : List Bar) : SimState :=
  (sortBars df).foldl (processBar stop_loss_pct take_profit_pct) (initState initial_cash)

/-- Full `simulate_trades_with_risk`: run the loop, then build and sort
the ledger. `pd.DataFrame(trades).sort_values(by='entry_datetime')`
raises `KeyError` when `trades` is empty, since the empty DataFrame has
no `entry_datetime` column. -/
def simulate_trades_with_risk (df : List Bar) (initial_cash stop_loss_pct take_profit_pct : ℚ) :
    Except String (List Trade) :=
  let final := runState stop_loss_pct take_profit_pct initial_cash df
  if final.trades = [] then Except.error "KeyError: entry_datetime"
  else Except.ok (sortTrades final.trades)

/-- Sum of `allocated_cash` over the open positions. -/
def allocSum (held : List (String × Position)) : ℚ :=
  (held.map (fun p => p.2.cash)).sum

/-- The full-precision profit and loss realized on one row: the exact
`pnl_pct * position['cash']` the exit block adds to `cash` when it
fires, `0` otherwise. -/
def exitPnl (stop_loss_pct take_profit_pct : ℚ) (st : SimState) (row : Bar) : ℚ :=
  match st.held_positions.lookup row.ticker with
  | some position =>
      if exitFires stop_loss_pct take_profit_pct position row then
        ((row.close - position.entry_price) / position.entry_price) * position.cash
      else 0
  | none => 0

/-- The full-precision realized profit and loss accumulated while the
loop consumes a bar stream from state `st`: the sum of the exact pnl
values the exit block releases into `cash`, before each is rounded to
2 decimals for the emitted record. -/
def realizedPnl (stop_loss_pct take_profit_pct : ℚ) (st : SimState) : List Bar → ℚ
  | [] => 0
  | row :: rest =>
      exitPnl stop_loss_pct take_profit_pct st row +
        realizedPnl stop_loss_pct take_profit_pct
          (processBar stop_loss_pct take_profit_pct st row) rest

/-- The per-row signal of `evaluate_signals`: the column is set to `0`,
then `1` where the buy condition holds, then `-1` where the sell
condition holds — the sell assignment overwrites the buy one. -/
def signalValue (buy sell : Bool) : ℤ :=
  let signal0 : ℤ := 0
  let signal1 := if buy then 1 else signal0
  if sell then -1 else signal1

/-- The per-group body `compute_signals` of `evaluate_signals`:
evaluate both conditions on every row and attach the signal column. -/
def compute_signals {α : Type} (buyCond sellCond : α → Bool) (group : List α) :
    List (α × ℤ) :=
  group.map fun r => (r, signalValue (buyCond r) (sellCond r))

/-- The group keys of `df.groupby('ticker')`: distinct tickers, in
sorted order (pandas sorts group keys). -/
def groupKeys (keys : List String) : List String :=
  List.insertionSort (· ≤ ·) keys.dedup

/-- Partition rows by ticker, one group per key in key order, each group
keeping the original row order. -/
def groupRows {α : Type} (tickerOf : α → String) (df : List α) : List (List α) :=
  (groupKeys (df.map tickerOf)).map fun t => df.filter fun r => tickerOf r == t

/-- Full `evaluate_signals`: apply `compute_signals` to each ticker
group and concatenate the groups. The two strategy predicates stand for
`pd.eval` of the configured buy and sell expressions on a row. -/
def evaluate_signals {α : Type} (buyCond sellCond : α → Bool) (tickerOf : α → String)
    (df : List α) : List (α × ℤ) :=
  ((groupRows tickerOf df).map (compute_signals buyCond sellCond)).flatten

/-- Rolling mean `series.rolling(w).mean()`: undefined before the
window is full, then the mean of the trailing `w` values inclusive of
the current index. -/
def rollingMean (w : ℕ) (xs : List ℚ) : List (Option ℚ) :=
  (List.range xs.length).map fun i =>
    if i + 1 < w then none
    else some (((xs.drop (i + 1 - w)).take w).sum / w)

/-- A moving-average column as `compute_group_indicators` emits it:
the rolling mean, rounded to 4 decimal places (the `cols_to_round`
step). Used for both `short_ma` and `long_ma`. -/
def sma (w : ℕ) (xs : List ℚ) : List (Option ℚ) :=
  (rollingMean w xs).map (Option.map (roundTo 4))

/-- The other indicator columns are produced by the external `ta`
library (RSI, MACD and Bollinger bands are library calls, not code of
this repository); they enter the model as opaque per-series functions
returning an optional value per index. -/
structure TALib where
  rsi : List ℚ → List (Option ℚ)
  macd : List ℚ → List (Option ℚ)
  macd_signal : List ℚ → List (Option ℚ)
  bb_upper : List ℚ → List (Option ℚ)
  bb_lower : List ℚ → List (Option ℚ)
  bb_middle : List ℚ → List (Option ℚ)

/-- One output row of `compute_group_indicators`: the close plus the
indicator columns, each `none` while its warmup is incomplete. -/
structure IndicatorRow where
  close : ℚ
  short_ma : Option ℚ
  long_ma : Option ℚ
  rsi : Option ℚ
  macd : Option ℚ
  macd_signal : Option ℚ
  bb_upper : Option ℚ
  bb_lower : Option ℚ
  bb_middle : Option ℚ
deriving DecidableEq, Repr

/-- The per-group body of `compute_indicators`: attach the moving
averages, the `ta`-library columns, and round every indicator column to
4 decimal places. -/
def compute_group_indicators (short_window long_window : ℕ) (talib : TALib)
    (closes : List ℚ) : List IndicatorRow :=
  (List.range closes.length).map fun i =>
    { close := closes.getD i 0
      short_ma := (sma short_window closes).getD i none
      long_ma := (sma long_window closes).getD i none
      rsi := ((talib.rsi closes).getD i none).map (roundTo 4)
      macd := ((talib.macd closes).getD i none).map (roundTo 4)
      macd_signal := ((talib.macd_signal closes).getD i none).map (roundTo 4)
      bb_upper := ((talib.bb_upper closes).getD i none).map (roundTo 4)
      bb_lower := ((talib.bb_lower closes).getD i none).map (roundTo 4)
      bb_middle := ((talib.bb_middle closes).getD i none).map (roundTo 4) }

/-- All indicator rows before the `dropna` step: the per-ticker groups
of `(ticker, close)` rows, each run through `compute_group_indicators`,
concatenated. -/
def computed_rows (short_window long_window : ℕ) (talib : TALib)
    (df : List (String × ℚ)) : List (String × IndicatorRow) :=
  ((groupKeys (df.map Prod.fst)).map fun t =>
    (compute_group_indicators short_window long_window talib
        ((df.filter fun r => r.1 == t).map Prod.snd)).map fun row => (t, row)).flatten

/-- Full `compute_indicators`: compute all rows, then
`dropna(subset=['short_ma', 'long_ma'])` — keep exactly the rows whose
two moving averages are defined. -/
def compute_indicators (short_window long_window : ℕ) (talib : TALib)
    (df : List (String × ℚ)) : List (String × IndicatorRow) :=
  (computed_rows short_window long_window talib df).filter fun p =>
    p.2.short_ma.isSome && p.2.long_ma.isSome

/-- An indicator library whose every series is still in warmup
(undefined at every index), to exhibit rows that lack only RSI, MACD or
Bollinger values. -/
def taUndefined : TALib :=
  { rsi := fun xs => xs.map fun _ => none
    macd := fun xs => xs.map fun _ => none
    macd_signal := fun xs => xs.map fun _ => none
    bb_upper := fun xs => xs.map fun _ => none
    bb_lower := fun xs => xs.map fun _ => none
    bb_middle := fun xs => xs.map fun _ => none }

/-! Helper lemmas shared by the claim theorems. -/

theorem lookup_mem {β : Type} {l : List (String × β)} {t : String} {p : β}
    (h : l.lookup t = some p) : (t, p) ∈ l := by
  induction l with
  | nil => simp at h
  | cons hd tl ih =>
      obtain ⟨k, v⟩ := hd
      rw [List.lookup] at h
      cases hbeq : (t == k) with
      | true =>
          rw [hbeq] at h
          obtain rfl : v = p := by simpa using h
          have hk : t = k := by simpa using hbeq
          subst hk
          exact List.mem_cons_self _ _
      | false =>
          rw [hbeq] at h
          exact List.mem_cons_of_mem _ (ih h)

theorem allocSum_eraseP {l : List (String × Position)} {t : String} {p : Position}
    (h : l.lookup t = some p) :
    allocSum (l.eraseP (fun q => q.1 == t)) = allocSum l - p.cash := by
  induction l with
  | nil => simp at h
  | cons hd tl ih =>
      obtain ⟨k, v⟩ := hd
      rw [List.lookup] at h
      cases hbeq : (t == k) with
      | true =>
          rw [hbeq] at h
          obtain rfl : v = p := by simpa using h
          have hk : (k == t) = true := by
            have : t = k := by simpa using hbeq
            simp [this]
          simp [List.eraseP_cons, hk, allocSum]
      | false =>
          rw [hbeq] at h
          have hk : (k == t) = false := by
            have : ¬t = k := by simpa using hbeq
            simpa using fun e => this e.symm
          have ih' := ih h
          simp [List.eraseP_cons, hk, allocSum] at ih' ⊢
          rw [ih']
          ring

theorem exitPhase_trades (slp tpp : ℚ) (st : SimState) (row : Bar) :
    (exitPhase slp tpp st row).trades = st.trades ∨
      ∃ position, st.held_positions.lookup row.ticker = some position ∧
        exitFires slp tpp position row ∧
        (exitPhase slp tpp st row).trades = st.trades ++ [exitTrade slp position row] := by
  unfold exitPhase
  cases hl : st.held_positions.lookup row.ticker with
  | none => exact Or.inl rfl
  | some position =>
      by_cases hf : exitFires slp tpp position row
      · exact Or.inr ⟨position, rfl, hf, by simp [hf]⟩
      · exact Or.inl (by simp [hf])

theorem entryPhase_trades (st : SimState) (row : Bar) :
    (entryPhase st row).trades = st.trades := by
  unfold entryPhase
  split <;> rfl

theorem exitPhase_cash_alloc (slp tpp : ℚ) (st : SimState) (row : Bar) :
    (exitPhase slp tpp st row).cash + allocSum (exitPhase slp tpp st row).held_positions =
      st.cash + allocSum st.held_positions + exitPnl slp tpp st row := by
  unfold exitPhase exitPnl
  cases hl : st.held_positions.lookup row.ticker with
  | none => simp
  | some position =>
      by_cases hf : exitFires slp tpp position row
      · simp only [hf, if_pos]
        rw [allocSum_eraseP hl]
        ring
      · simp [hf]

theorem entryPhase_cash_alloc (st : SimState) (row : Bar) :
    (entryPhase st row).cash + allocSum (entryPhase st row).held_positions =
      st.cash + allocSum st.held_positions := by
  unfold entryPhase
  split
  · simp [allocSum]
  · rfl

theorem processBar_cash_alloc (slp tpp : ℚ) (st : SimState) (row : Bar) :
    (processBar slp tpp st row).cash + allocSum (processBar slp tpp st row).held_positions =
      st.cash + allocSum st.held_positions + exitPnl slp tpp st row := by
  unfold processBar
  rw [entryPhase_cash_alloc, exitPhase_cash_alloc]

theorem foldl_cash_alloc (slp tpp : ℚ) (bars : List Bar) (st : SimState) :
    (bars.foldl (processBar slp tpp) st).cash +
        allocSum (bars.foldl (processBar slp tpp) st).held_positions =
      st.cash + allocSum st.held_positions + realizedPnl slp tpp st bars := by
  induction bars generalizing st with
  | nil => simp [realizedPnl]
  | cons row rest ih =>
      simp only [List.foldl_cons, realizedPnl]
      rw [ih, processBar_cash_alloc]
      ring

theorem processBar_trades_of_exit (slp tpp : ℚ) (st : SimState) (row : Bar)
    (position : Position) (hlook : st.held_positions.lookup row.ticker = some position)
    (hfire : exitFires slp tpp position row) :
    (processBar slp tpp st row).trades = st.trades ++ [exitTrade slp position row] := by
  unfold processBar
  rw [entryPhase_trades]
  unfold exitPhase
  rw [hlook]
  simp [hfire]

theorem exitPnl_of_exit (slp tpp : ℚ) (st : SimState) (row : Bar)
    (position : Position) (hlook : st.held_positions.lookup row.ticker = some position)
    (hfire : exitFires slp tpp position row) :
    exitPnl slp tpp st row =
      (row.close - position.entry_price) / position.entry_price * position.cash := by
  unfold exitPnl
  rw [hlook]
  simp [hfire]

theorem processBar_single (slp tpp : ℚ) (st : SimState) (row : Bar)
    (h1 : st.held_positions.length ≤ 1) (h2 : st.held_positions = [] ∨ st.cash = 0) :
    (processBar slp tpp st row).held_positions.length ≤ 1 ∧
      ((processBar slp tpp st row).held_positions = [] ∨
        (processBar slp tpp st row).cash = 0) := by
  have hex : (exitPhase slp tpp st row).held_positions.length ≤ 1 ∧
      ((exitPhase slp tpp st row).held_positions = [] ∨
        (exitPhase slp tpp st row).cash = 0) := by
    unfold exitPhase
    cases hl : st.held_positions.lookup row.ticker with
    | none => exact ⟨h1, h2⟩
    | some position =>
        by_cases hf : exitFires slp tpp position row
        · have hmem := lookup_mem hl
          have hne : st.held_positions ≠ [] := by
            intro he
            rw [he] at hmem
            simp at hmem
          have hlen : st.held_positions.length = 1 := by
            cases hcl : st.held_positions with
            | nil => exact absurd hcl hne
            | cons a l =>
                rw [hcl] at h1
                simp at h1
                simp [hcl, h1]
          obtain ⟨a, ha⟩ := List.length_eq_one.mp hlen
          rw [ha] at hmem
          have haeq : a = (row.ticker, position) := (List.mem_singleton.mp hmem).symm
          simp only [hf, if_true, ha, haeq]
          constructor
          · simp [List.eraseP_cons]
          · left
            simp [List.eraseP_cons]
        · simp only [hf, if_false]
          exact ⟨h1, h2⟩
  obtain ⟨e1, e2⟩ := hex
  unfold processBar entryPhase
  by_cases hc : row.signal = 1 ∧
      ((exitPhase slp tpp st row).held_positions.lookup row.ticker) = none ∧
      0 < (exitPhase slp tpp st row).cash
  · have hempty : (exitPhase slp tpp st row).held_positions = [] := by
      rcases e2 with h | h
      · exact h
      · rw [h] at hc
        exact absurd hc.2.2 (lt_irrefl 0)
    simp [hc, hempty]
  · simp only [hc, if_false]
    exact ⟨e1, e2⟩

theorem foldl_single (slp tpp : ℚ) (bars : List Bar) (st : SimState)
    (h1 : st.held_positions.length ≤ 1) (h2 : st.held_positions = [] ∨ st.cash = 0) :
    (bars.foldl (processBar slp tpp) st).held_positions.length ≤ 1 ∧
      ((bars.foldl (processBar slp tpp) st).held_positions = [] ∨
        (bars.foldl (processBar slp tpp) st).cash = 0) := by
  induction bars generalizing st with
  | nil => exact ⟨h1, h2⟩
  | cons row rest ih =>
      simp only [List.foldl_cons]
      obtain ⟨s1, s2⟩ := processBar_single slp tpp st row h1 h2
      exact ih _ s1 s2

/-- C2: at every processed bar of `simulate_trades_with_risk` — that is,
after the loop has consumed any prefix of the sorted bar stream — the
held-positions map has at most one entry: an entry allocates the whole
of `cash` and zeroes it, and entry requires positive cash, so no second
ticker can open while a position is held. -/
theorem single_open_position_invariant (df : List Bar) (ic slp tpp : ℚ) (n : ℕ) :
    (((sortBars df).take n).foldl (processBar slp tpp)
        (initState ic)).held_positions.length ≤ 1 :=
  (foldl_single slp tpp ((sortBars df).take n) (initState ic)
    (by simp [initState]) (Or.inl rfl)).1

/-- C1 (amended): at every point of the simulation, `cash` plus the sum
of `allocated_cash` over the open positions equals `initial_capital`
plus the realized profit and loss of the trades closed so far taken at
full precision — the exact values the exit block releases into `cash`,
not the 2-decimal-rounded `pnl` fields of the emitted records. -/
theorem capital_conservation_full_precision (df : List Bar) (ic slp tpp : ℚ) (n : ℕ) :
    (((sortBars df).take n).foldl (processBar slp tpp) (initState ic)).cash +
        allocSum (((sortBars df).take n).foldl (processBar slp tpp)
          (initState ic)).held_positions =
      ic + realizedPnl slp tpp (initState ic) ((sortBars df).take n) := by
  have h := foldl_cash_alloc slp tpp ((sortBars df).take n) (initState ic)
  simpa [initState, allocSum] using h

/-- C1 counterexample to the claim as stated: on the two-bar run
(buy at close 3, sell at close 4, initial capital 1000) the final cash
is `4000/3` with no open position, while `initial_capital` plus the sum
of the `pnl` fields of the closed trades is `1000 + 333.33 = 133333/100`
(the exact pnl `1000/3` is rounded to 2 decimals in the emitted record),
so the claimed equality evaluates to `false`. -/
theorem capital_conservation_rounded_pnl_cex :
    decide ((runState (1/20) (1/2) 1000 [⟨0, "X", 1, 3⟩, ⟨900, "X", -1, 4⟩]).cash +
          allocSum (runState (1/20) (1/2) 1000
            [⟨0, "X", 1, 3⟩, ⟨900, "X", -1, 4⟩]).held_positions =
        1000 + ((runState (1/20) (1/2) 1000
          [⟨0, "X", 1, 3⟩, ⟨900, "X", -1, 4⟩]).trades.map Trade.pnl).sum) = false ∧
    (runState (1/20) (1/2) 1000 [⟨0, "X", 1, 3⟩, ⟨900, "X", -1, 4⟩]).cash +
        allocSum (runState (1/20) (1/2) 1000
          [⟨0, "X", 1, 3⟩, ⟨900, "X", -1, 4⟩]).held_positions = 4000 / 3 ∧
    1000 + ((runState (1/20) (1/2) 1000
      [⟨0, "X", 1, 3⟩, ⟨900, "X", -1, 4⟩]).trades.map Trade.pnl).sum = 133333 / 100 := by
  refine ⟨?_, ?_, ?_⟩ <;> with_unfolding_all rfl

/-- C3: on every bar on which a held ticker exits, the emitted record is
appended to the ledger and its `exit_reason` follows first-match
priority — the sell-signal label (`'Strategy logic'`, the code's string
for the spec's `signal` label) when the bar's signal is Sell, even when
a stop-loss (`'Stop loss raised'`) or take-profit (`'Stop gain raised'`)
breach coincides; otherwise the stop-loss label when the stop-loss
threshold is breached; otherwise the take-profit label — and the label
is always one of those three. -/
theorem exit_reason_first_match (slp tpp : ℚ) (st : SimState) (row : Bar)
    (position : Position) (hlook : st.held_positions.lookup row.ticker = some position)
    (hfire : exitFires slp tpp position row) :
    (processBar slp tpp st row).trades = st.trades ++ [exitTrade slp position row] ∧
    (exitTrade slp position row).exit_reason =
      (if row.signal = -1 then "Strategy logic"
       else if (row.close - position.entry_price) / position.entry_price ≤ -slp then
         "Stop loss raised"
       else "Stop gain raised") ∧
    (row.signal = -1 → (exitTrade slp position row).exit_reason = "Strategy logic") ∧
    ((exitTrade slp position row).exit_reason = "Strategy logic" ∨
      (exitTrade slp position row).exit_reason = "Stop loss raised" ∨
      (exitTrade slp position row).exit_reason = "Stop gain raised") := by
  refine ⟨processBar_trades_of_exit slp tpp st row position hlook hfire, ?_, ?_, ?_⟩
  · simp [exitTrade]
  · intro hs
    simp [exitTrade, hs]
  · simp only [exitTrade]
    split_ifs <;> simp

/-- C3 witness: a bar whose signal is Sell while the stop-loss threshold
is simultaneously breached (entry 100, close 90, stop loss 5%) records
the sell-signal label. -/
theorem exit_reason_first_match_witness :
    (processBar (1/20) (15/100) ⟨[("X", ⟨100, 0, 1000, 10⟩)], [], 0⟩
        ⟨900, "X", -1, 90⟩).trades =
      [] ++ [exitTrade (1/20) ⟨100, 0, 1000, 10⟩ ⟨900, "X", -1, 90⟩] ∧
    (exitTrade (1/20) ⟨100, 0, 1000, 10⟩ ⟨900, "X", -1, 90⟩).exit_reason =
      (if (⟨900, "X", -1, 90⟩ : Bar).signal = -1 then "Strategy logic"
       else if ((90 : ℚ) - 100) / 100 ≤ -(1/20) then "Stop loss raised"
       else "Stop gain raised") ∧
    ((⟨900, "X", -1, 90⟩ : Bar).signal = -1 →
      (exitTrade (1/20) ⟨100, 0, 1000, 10⟩ ⟨900, "X", -1, 90⟩).exit_reason =
        "Strategy logic") ∧
    ((exitTrade (1/20) ⟨100, 0, 1000, 10⟩ ⟨900, "X", -1, 90⟩).exit_reason =
        "Strategy logic" ∨
      (exitTrade (1/20) ⟨100, 0, 1000, 10⟩ ⟨900, "X", -1, 90⟩).exit_reason =
        "Stop loss raised" ∨
      (exitTrade (1/20) ⟨100, 0, 1000, 10⟩ ⟨900, "X", -1, 90⟩).exit_reason =
        "Stop gain raised") :=
  exit_reason_first_match (1/20) (15/100) ⟨[("X", ⟨100, 0, 1000, 10⟩)], [], 0⟩
    ⟨900, "X", -1, 90⟩ ⟨100, 0, 1000, 10⟩ (by with_unfolding_all rfl) (Or.inl rfl)

/-- C7: every emitted trade's numeric fields are the full-precision
quantities rounded only at emission: `return_pct` is the exact
`(exit - entry)/entry * 100` rounded to 4 decimals, `pnl` is the exact
`pnl_pct * allocated_cash` (equivalently `return_pct/100 *
allocated_cash` at full precision) rounded to 2, prices are rounded to
4 and `allocated_cash` to 2 at emission only, `holding_ticks` is the
elapsed seconds divided by 900, and the pnl released back into the
portfolio is the unrounded value. -/
theorem trade_record_full_precision (slp tpp : ℚ) (st : SimState) (row : Bar)
    (position : Position) (hlook : st.held_positions.lookup row.ticker = some position)
    (hfire : exitFires slp tpp position row) :
    (processBar slp tpp st row).trades = st.trades ++ [exitTrade slp position row] ∧
    (exitTrade slp position row).return_pct =
      roundTo 4 ((row.close - position.entry_price) / position.entry_price * 100) ∧
    (exitTrade slp position row).pnl =
      roundTo 2 ((row.close - position.entry_price) / position.entry_price *
        position.cash) ∧
    (exitTrade slp position row).pnl =
      roundTo 2 ((row.close - position.entry_price) / position.entry_price * 100 / 100 *
        position.cash) ∧
    (exitTrade slp position row).allocated_cash = roundTo 2 position.cash ∧
    (exitTrade slp position row).entry_price = roundTo 4 position.entry_price ∧
    (exitTrade slp position row).exit_price = roundTo 4 row.close ∧
    (exitTrade slp position row).holding_ticks =
      ((row.timestamp - position.entry_datetime : ℤ) : ℚ) / 900 ∧
    (processBar slp tpp st row).cash +
        allocSum (processBar slp tpp st row).held_positions =
      st.cash + allocSum st.held_positions +
        (row.close - position.entry_price) / position.entry_price * position.cash := by
  refine ⟨processBar_trades_of_exit slp tpp st row position hlook hfire,
    rfl, rfl, ?_, rfl, rfl, rfl, ?_, ?_⟩
  · have h100 : (row.close - position.entry_price) / position.entry_price * 100 / 100 =
        (row.close - position.entry_price) / position.entry_price := by
      rw [mul_div_assoc]
      norm_num
    rw [h100]
    rfl
  · simp [exitTrade]
    norm_num
  · rw [processBar_cash_alloc, exitPnl_of_exit slp tpp st row position hlook hfire]

/-- C7 witness: the exit of a position entered at price 3 with 1000
allocated, closed at price 4 (sell signal), emits `return_pct =
33.3333`, `pnl = 333.33` and books the exact `1000/3` into cash. -/
theorem trade_record_full_precision_witness :
    (processBar (1/20) (1/2) ⟨[("X", ⟨3, 0, 1000, 1000/3⟩)], [], 0⟩
        ⟨900, "X", -1, 4⟩).trades =
      [] ++ [exitTrade (1/20) ⟨3, 0, 1000, 1000/3⟩ ⟨900, "X", -1, 4⟩] ∧
    (exitTrade (1/20) ⟨3, 0, 1000, 1000/3⟩ ⟨900, "X", -1, 4⟩).return_pct =
      roundTo 4 (((4 : ℚ) - 3) / 3 * 100) ∧
    (exitTrade (1/20) ⟨3, 0, 1000, 1000/3⟩ ⟨900, "X", -1, 4⟩).pnl =
      roundTo 2 (((4 : ℚ) - 3) / 3 * 1000) ∧
    (exitTrade (1/20) ⟨3, 0, 1000, 1000/3⟩ ⟨900, "X", -1, 4⟩).pnl =
      roundTo 2 (((4 : ℚ) - 3) / 3 * 100 / 100 * 1000) ∧
    (exitTrade (1/20) ⟨3, 0, 1000, 1000/3⟩ ⟨900, "X", -1, 4⟩).allocated_cash =
      roundTo 2 1000 ∧
    (exitTrade (1/20) ⟨3, 0, 1000, 1000/3⟩ ⟨900, "X", -1, 4⟩).entry_price =
      roundTo 4 3 ∧
    (exitTrade (1/20) ⟨3, 0, 1000, 1000/3⟩ ⟨900, "X", -1, 4⟩).exit_price =
      roundTo 4 4 ∧
    (exitTrade (1/20) ⟨3, 0, 1000, 1000/3⟩ ⟨900, "X", -1, 4⟩).holding_ticks =
      (((900 : ℤ) - 0 : ℤ) : ℚ) / 900 ∧
    (processBar (1/20) (1/2) ⟨[("X", ⟨3, 0, 1000, 1000/3⟩)], [], 0⟩
          ⟨900, "X", -1, 4⟩).cash +
        allocSum (processBar (1/20) (1/2) ⟨[("X", ⟨3, 0, 1000, 1000/3⟩)], [], 0⟩
          ⟨900, "X", -1, 4⟩).held_positions =
      0 + allocSum [("X", ⟨3, 0, 1000, 1000/3⟩)] + ((4 : ℚ) - 3) / 3 * 1000 :=
  trade_record_full_precision (1/20) (1/2) ⟨[("X", ⟨3, 0, 1000, 1000/3⟩)], [], 0⟩
    ⟨900, "X", -1, 4⟩ ⟨3, 0, 1000, 1000/3⟩ (by with_unfolding_all rfl) (Or.inl rfl)

/-- C9: whenever no exit ever fires during a run (the trade collection
of the loop stays empty — for instance on an empty bar stream),
`simulate_trades_with_risk` does not return an empty ledger: sorting the
empty trade DataFrame by the absent `entry_datetime` column raises a
`KeyError`. -/
theorem empty_trades_keyerror (df : List Bar) (ic slp tpp : ℚ)
    (h : (runState slp tpp ic df).trades = []) :
    simulate_trades_with_risk df ic slp tpp =
      Except.error "KeyError: entry_datetime" := by
  unfold simulate_trades_with_risk
  simp [h]

/-- C9 witness: the empty bar stream produces the `KeyError`. -/
theorem empty_trades_keyerror_witness :
    simulate_trades_with_risk [] 0 0 0 = Except.error "KeyError: entry_datetime" :=
  empty_trades_keyerror [] 0 0 0 rfl

/-- C5: every row `evaluate_signals` emits carries signal `1` when only
the buy condition holds, `-1` when only the sell condition holds, `0`
when neither holds, and `-1` when both hold — the sell assignment
overwrites the buy assignment. -/
theorem evaluate_signals_sell_precedence {α : Type} (buyCond sellCond : α → Bool)
    (tickerOf : α → String) (df : List α) (p : α × ℤ)
    (hp : p ∈ evaluate_signals buyCond sellCond tickerOf df) :
    (buyCond p.1 = true ∧ sellCond p.1 = false → p.2 = 1) ∧
    (sellCond p.1 = true ∧ buyCond p.1 = false → p.2 = -1) ∧
    (buyCond p.1 = false ∧ sellCond p.1 = false → p.2 = 0) ∧
    (buyCond p.1 = true ∧ sellCond p.1 = true → p.2 = -1) := by
  have hval : p.2 = signalValue (buyCond p.1) (sellCond p.1) := by
    unfold evaluate_signals at hp
    rw [List.mem_flatten] at hp
    obtain ⟨l, hl, hpl⟩ := hp
    rw [List.mem_map] at hl
    obtain ⟨g, hg, rfl⟩ := hl
    unfold compute_signals at hpl
    rw [List.mem_map] at hpl
    obtain ⟨r, hr, rfl⟩ := hpl
    rfl
  rw [hval]
  unfold signalValue
  refine ⟨?_, ?_, ?_, ?_⟩ <;> rintro ⟨h1, h2⟩ <;> simp [h1, h2]

/-- C5 witness: a row on which both conditions hold is emitted with
signal `-1`. -/
theorem evaluate_signals_sell_precedence_witness :
    (true = true ∧ true = false → ((0 : ℕ), (-1 : ℤ)).2 = 1) ∧
    (true = true ∧ true = false → ((0 : ℕ), (-1 : ℤ)).2 = -1) ∧
    (true = false ∧ true = false → ((0 : ℕ), (-1 : ℤ)).2 = 0) ∧
    (true = true ∧ true = true → ((0 : ℕ), (-1 : ℤ)).2 = -1) :=
  evaluate_signals_sell_precedence (fun _ => true) (fun _ => true) (fun _ => "X")
    [0] (0, -1) (by with_unfolding_all decide)

/-- C4: bars are processed in ascending `(timestamp, ticker)` order (the
sorted stream is ordered by `barLe` and is a permutation of the input);
the buy block fires exactly when the signal is Buy, the ticker is not
held, and cash is positive, allocating the entirety of cash
(`allocated_cash = cash`, `shares = cash / close`, `entry_price =
close`, `entry_datetime = timestamp`) and zeroing cash; consequently
when tickers "A" and "B" both signal Buy at the same timestamp, "A"
(first by the ticker tie-break) receives 100% of the cash and "B" opens
no position. -/
theorem entry_all_in_allocation :
    (∀ df : List Bar, List.Sorted barLe (sortBars df) ∧ (sortBars df).Perm df) ∧
    (∀ st : SimState, ∀ row : Bar,
      (row.signal = 1 ∧ st.held_positions.lookup row.ticker = none ∧ 0 < st.cash →
        entryPhase st row =
          { held_positions := (row.ticker,
              { entry_price := row.close, entry_datetime := row.timestamp,
                cash := st.cash, shares := st.cash / row.close }) :: st.held_positions,
            trades := st.trades, cash := 0 }) ∧
      (¬(row.signal = 1 ∧ st.held_positions.lookup row.ticker = none ∧ 0 < st.cash) →
        entryPhase st row = st)) ∧
    runState (1/20) (15/100) 1000 [⟨0, "B", 1, 10⟩, ⟨0, "A", 1, 5⟩] =
      { held_positions := [("A", ⟨5, 0, 1000, 200⟩)], trades := [], cash := 0 } := by
  refine ⟨?_, ?_, ?_⟩
  · exact fun df => ⟨List.sorted_insertionSort barLe df, List.perm_insertionSort barLe df⟩
  · intro st row
    obtain ⟨held, trades, cash⟩ := st
    constructor
    · intro h
      simp [entryPhase, h]
    · intro h
      simp only [entryPhase, if_neg h]
  · with_unfolding_all rfl

theorem take_drop_eq_map_range {xs : List ℚ} {w k : ℕ} (h : k + w ≤ xs.length) :
    (xs.drop k).take w = (List.range w).map (fun j => xs.getD (k + j) 0) := by
  induction w generalizing k with
  | zero => simp
  | succ w ih =>
      have hk : k < xs.length := by omega
      rw [List.drop_eq_getElem_cons hk, List.take_succ_cons, List.range_succ_eq_map,
        List.map_cons, List.map_map]
      have h1 : xs[k] = xs.getD (k + 0) 0 := by
        simp [List.getD_eq_getElem?_getD, List.getElem?_eq_getElem hk]
      have h2 : (xs.drop (k + 1)).take w =
          (List.range w).map ((fun j => xs.getD (k + j) 0) ∘ Nat.succ) := by
        rw [ih (by omega)]
        apply List.map_congr_left
        intro j _
        simp only [Function.comp]
        congr 1
        omega
      rw [← h1, ← h2]

theorem sum_range_reflect_getD (xs : List ℚ) (i : ℕ) :
    ∀ w, w ≤ i + 1 →
      ((List.range w).map (fun j => xs.getD (i - j) 0)).sum =
        ((List.range w).map (fun j => xs.getD (i + 1 - w + j) 0)).sum := by
  intro w
  induction w with
  | zero => simp
  | succ w ih =>
      intro h
      have hL : ((List.range (w + 1)).map (fun j => xs.getD (i - j) 0)).sum =
          ((List.range w).map (fun j => xs.getD (i - j) 0)).sum + xs.getD (i - w) 0 := by
        rw [List.range_succ, List.map_append, List.sum_append, List.map_singleton,
          List.sum_singleton]
      have hR : ((List.range (w + 1)).map (fun j => xs.getD (i + 1 - (w + 1) + j) 0)).sum =
          xs.getD (i + 1 - (w + 1) + 0) 0 +
            ((List.range w).map ((fun j => xs.getD (i + 1 - (w + 1) + j) 0) ∘ Nat.succ)).sum := by
        rw [List.range_succ_eq_map, List.map_cons, List.sum_cons, List.map_map]
      have e1 : i + 1 - (w + 1) + 0 = i - w := by omega
      have e2 : (List.range w).map ((fun j => xs.getD (i + 1 - (w + 1) + j) 0) ∘ Nat.succ) =
          (List.range w).map (fun j => xs.getD (i + 1 - w + j) 0) := by
        apply List.map_congr_left
        intro j _
        simp only [Function.comp_apply]
        congr 1
        omega
      rw [hL, hR, e1, e2, ih (by omega)]
      ring

/-- C6: for window `w >= 1`, the moving-average column is undefined at
indices `0 .. w-2` and from index `w-1` onward equals the arithmetic
mean of the trailing `w` closes inclusive of the current index, rounded
to 4 decimal places at emission; closes `[1,2,3,4]` with window 3 yield
`[undefined, undefined, 2.0, 3.0]`. The same column function serves
`short_ma` and `long_ma` in `compute_group_indicators`. -/
theorem sma_trailing_mean (w : ℕ) (xs : List ℚ) (i : ℕ) (hw : 1 ≤ w) :
    (sma w xs).length = xs.length ∧
    (i < xs.length → i + 1 < w → (sma w xs)[i]? = some none) ∧
    (i < xs.length → w ≤ i + 1 →
      (sma w xs)[i]? = some (some (roundTo 4
        (((List.range w).map (fun j => xs.getD (i - j) 0)).sum / w)))) ∧
    sma 3 [1, 2, 3, 4] = [none, none, some 2, some 3] := by
  have hlen : (sma w xs).length = xs.length := by
    simp [sma, rollingMean]
  have hcell : ∀ j : ℕ, j < xs.length →
      (sma w xs)[j]? = some (Option.map (roundTo 4)
        (if j + 1 < w then none
         else some (((xs.drop (j + 1 - w)).take w).sum / w))) := by
    intro j hj
    simp only [sma, rollingMean, List.getElem?_map, List.map_map]
    rw [List.getElem?_range hj]
    rfl
  refine ⟨hlen, ?_, ?_, ?_⟩
  · intro hi hiw
    rw [hcell i hi]
    simp [hiw]
  · intro hi hiw
    have hnot : ¬(i + 1 < w) := by omega
    have hsum : ((xs.drop (i + 1 - w)).take w).sum =
        ((List.range w).map (fun j => xs.getD (i - j) 0)).sum := by
      rw [take_drop_eq_map_range (by omega), ← sum_range_reflect_getD xs i w (by omega)]
    rw [hcell i hi, if_neg hnot, hsum]
    rfl
  · with_unfolding_all rfl

/-- C6 witness: closes `[1,2,3,4]` with window 3, at index 2, give the
trailing mean `(1+2+3)/3 = 2`. -/
theorem sma_trailing_mean_witness :
    (sma 3 [1, 2, 3, 4]).length = ([1, 2, 3, 4] : List ℚ).length ∧
    (2 < ([1, 2, 3, 4] : List ℚ).length → 2 + 1 < 3 → (sma 3 [1, 2, 3, 4])[2]? = some none) ∧
    (2 < ([1, 2, 3, 4] : List ℚ).length → 3 ≤ 2 + 1 →
      (sma 3 [1, 2, 3, 4])[2]? = some (some (roundTo 4
        (((List.range 3).map (fun j => ([1, 2, 3, 4] : List ℚ).getD (2 - j) 0)).sum / 3)))) ∧
    sma 3 [1, 2, 3, 4] = [none, none, some 2, some 3] :=
  sma_trailing_mean 3 [1, 2, 3, 4] 2 (by norm_num)

/-- C8: `compute_indicators` drops exactly the rows lacking a
`short_ma` or `long_ma` value — membership in the output is membership
among the computed rows plus definedness of the two moving averages,
with no condition on RSI, MACD, `macd_signal` or the Bollinger
columns — and a row whose RSI/MACD/Bollinger values are all undefined
survives as long as its moving averages are defined: with windows 1/2
over closes `[1, 2]` the warmup row is dropped, while the second row is
kept with every `ta`-library column `none`. -/
theorem dropna_short_long_only (sw lw : ℕ) (talib : TALib) (df : List (String × ℚ))
    (p : String × IndicatorRow) :
    (p ∈ compute_indicators sw lw talib df ↔
      p ∈ computed_rows sw lw talib df ∧
        p.2.short_ma.isSome = true ∧ p.2.long_ma.isSome = true) ∧
    compute_indicators 1 2 taUndefined [("X", 1), ("X", 2)] =
      [("X", ⟨2, some 2, some (3/2), none, none, none, none, none, none⟩)] := by
  constructor
  · simp [compute_indicators, List.mem_filter, Bool.and_eq_true]
  · with_unfolding_all rfl

theorem processBar_entries_before (slp tpp : ℚ) (st : SimState) (row : Bar)
    (rest : List Bar)
    (hhead : ∀ b ∈ rest, row.ticker = b.ticker → row.timestamp < b.timestamp)
    (hEnt : ∀ q ∈ st.held_positions, ∀ b ∈ (row :: rest), b.ticker = q.1 →
      q.2.entry_datetime < b.timestamp)
    (hTr : ∀ tr ∈ st.trades, tr.entry_datetime < tr.exit_datetime ∧
      tr.holding_ticks = ((tr.exit_datetime - tr.entry_datetime : ℤ) : ℚ) / (15 * 60)) :
    (∀ q ∈ (processBar slp tpp st row).held_positions, ∀ b ∈ rest, b.ticker = q.1 →
      q.2.entry_datetime < b.timestamp) ∧
    (∀ tr ∈ (processBar slp tpp st row).trades,
      tr.entry_datetime < tr.exit_datetime ∧
      tr.holding_ticks = ((tr.exit_datetime - tr.entry_datetime : ℤ) : ℚ) / (15 * 60)) := by
  have hx : (∀ q ∈ (exitPhase slp tpp st row).held_positions, q ∈ st.held_positions) ∧
      (∀ tr ∈ (exitPhase slp tpp st row).trades,
        tr.entry_datetime < tr.exit_datetime ∧
        tr.holding_ticks = ((tr.exit_datetime - tr.entry_datetime : ℤ) : ℚ) / (15 * 60)) := by
    unfold exitPhase
    cases hl : st.held_positions.lookup row.ticker with
    | none => exact ⟨fun q hq => hq, hTr⟩
    | some position =>
        by_cases hf : exitFires slp tpp position row
        · simp only [hf, if_true]
          constructor
          · intro q hq
            exact (List.eraseP_sublist _).subset hq
          · intro tr htr
            rw [List.mem_append] at htr
            rcases htr with h | h
            · exact hTr tr h
            · rw [List.mem_singleton] at h
              subst h
              have hpmem := lookup_mem hl
              have hlt : position.entry_datetime < row.timestamp :=
                hEnt (row.ticker, position) hpmem row (List.mem_cons_self _ _) rfl
              exact ⟨hlt, rfl⟩
        · simp only [hf, if_false]
          exact ⟨fun q hq => hq, hTr⟩
  have hEnt1 : ∀ q ∈ (exitPhase slp tpp st row).held_positions, ∀ b ∈ rest,
      b.ticker = q.1 → q.2.entry_datetime < b.timestamp := by
    intro q hq b hb hbt
    exact hEnt q (hx.1 q hq) b (List.mem_cons_of_mem _ hb) hbt
  unfold processBar entryPhase
  by_cases hc : row.signal = 1 ∧
      ((exitPhase slp tpp st row).held_positions.lookup row.ticker) = none ∧
      0 < (exitPhase slp tpp st row).cash
  · rw [if_pos hc]
    constructor
    · intro q hq b hb hbt
      rw [List.mem_cons] at hq
      rcases hq with rfl | hq
      · exact hhead b hb hbt.symm
      · exact hEnt1 q hq b hb hbt
    · exact hx.2
  · rw [if_neg hc]
    exact ⟨hEnt1, hx.2⟩

theorem foldl_entries_before (slp tpp : ℚ) (bars : List Bar) (st : SimState)
    (hsorted : bars.Pairwise (fun a b => a.ticker = b.ticker → a.timestamp < b.timestamp))
    (hEnt : ∀ q ∈ st.held_positions, ∀ b ∈ bars, b.ticker = q.1 →
      q.2.entry_datetime < b.timestamp)
    (hTr : ∀ tr ∈ st.trades, tr.entry_datetime < tr.exit_datetime ∧
      tr.holding_ticks = ((tr.exit_datetime - tr.entry_datetime : ℤ) : ℚ) / (15 * 60)) :
    ∀ tr ∈ (bars.foldl (processBar slp tpp) st).trades,
      tr.entry_datetime < tr.exit_datetime ∧
      tr.holding_ticks = ((tr.exit_datetime - tr.entry_datetime : ℤ) : ℚ) / (15 * 60) := by
  induction bars generalizing st with
  | nil => exact hTr
  | cons row rest ih =>
      rw [List.pairwise_cons] at hsorted
      simp only [List.foldl_cons]
      obtain ⟨s1, s2⟩ := processBar_entries_before slp tpp st row rest hsorted.1 hEnt hTr
      exact ih _ hsorted.2 s1 s2

/-- C10: when every `(timestamp, ticker)` pair occurs at most once in
the input, every trade in the returned ledger has `exit_datetime`
strictly greater than `entry_datetime`, equivalently `holding_ticks >
0`: the exit check runs before the entry check on each bar and only
applies to positions opened on an earlier bar, so a position is never
closed on the bar that opened it. -/
theorem no_same_bar_exit (df : List Bar) (ic slp tpp : ℚ)
    (hkeys : (df.map fun b => (b.timestamp, b.ticker)).Nodup)
    (ledger : List Trade)
    (hok : simulate_trades_with_risk df ic slp tpp = Except.ok ledger)
    (tr : Trade) (htr : tr ∈ ledger) :
    tr.entry_datetime < tr.exit_datetime ∧ 0 < tr.holding_ticks := by
  have hledger : ledger = sortTrades (runState slp tpp ic df).trades := by
    unfold simulate_trades_with_risk at hok
    by_cases he : (runState slp tpp ic df).trades = []
    · rw [if_pos he] at hok
      exact absurd hok (by simp)
    · rw [if_neg he] at hok
      simp at hok
      exact hok.symm
  have htr' : tr ∈ (runState slp tpp ic df).trades := by
    rw [hledger] at htr
    exact (List.perm_insertionSort tradeLe _).mem_iff.mp htr
  have hsorted : (sortBars df).Pairwise
      (fun a b => a.ticker = b.ticker → a.timestamp < b.timestamp) := by
    have h1 : (sortBars df).Pairwise barLe := List.sorted_insertionSort barLe df
    have h2 : ((sortBars df).map fun b => (b.timestamp, b.ticker)).Nodup :=
      (((List.perm_insertionSort barLe df).map _).nodup_iff).mpr hkeys
    have h3 : (sortBars df).Pairwise
        (fun a b => (a.timestamp, a.ticker) ≠ (b.timestamp, b.ticker)) :=
      List.pairwise_map.mp h2
    refine (h1.and h3).imp ?_
    intro a b hab hteq
    rcases hab with ⟨hle, hne⟩
    rcases hle with h | ⟨h, _⟩
    · exact h
    · exact absurd (by rw [h, hteq]) hne
  have hrun : tr ∈ ((sortBars df).foldl (processBar slp tpp) (initState ic)).trades := by
    rw [runState] at htr'
    exact htr'
  have hres := foldl_entries_before slp tpp (sortBars df) (initState ic) hsorted
    (by intro q hq; simp [initState] at hq)
    (by intro tr0 htr0; simp [initState] at htr0) tr hrun
  refine ⟨hres.1, ?_⟩
  rw [hres.2]
  have hpos : (0 : ℚ) < ((tr.exit_datetime - tr.entry_datetime : ℤ) : ℚ) := by
    have h0 : (0 : ℤ) < tr.exit_datetime - tr.entry_datetime := by
      have := hres.1
      omega
    exact_mod_cast h0
  exact div_pos hpos (by norm_num)

/-- C10 witness: the buy-at-3 / sell-at-4 run over distinct timestamps
emits a single trade entered at time 0 and exited at time 900, with
positive holding ticks. -/
theorem no_same_bar_exit_witness :
    (exitTrade (1/20) ⟨3, 0, 1000, 1000 / 3⟩ ⟨900, "X", -1, 4⟩).entry_datetime <
      (exitTrade (1/20) ⟨3, 0, 1000, 1000 / 3⟩ ⟨900, "X", -1, 4⟩).exit_datetime ∧
    0 < (exitTrade (1/20) ⟨3, 0, 1000, 1000 / 3⟩ ⟨900, "X", -1, 4⟩).holding_ticks :=
  no_same_bar_exit [⟨0, "X", 1, 3⟩, ⟨900, "X", -1, 4⟩] 1000 (1/20) (1/2)
    (by with_unfolding_all decide)
    [exitTrade (1/20) ⟨3, 0, 1000, 1000 / 3⟩ ⟨900, "X", -1, 4⟩]
    (by with_unfolding_all rfl)
    (exitTrade (1/20) ⟨3, 0, 1000, 1000 / 3⟩ ⟨900, "X", -1, 4⟩)
    (List.mem_singleton_self _)

/-- C4 witness: a Buy bar for "A" at close 5 against an empty book with
cash 1000 opens the all-in position. -/
theorem entry_all_in_allocation_witness :
    (0 : ℚ) < 1000 ∧
    entryPhase ⟨[], [], 1000⟩ ⟨0, "A", 1, 5⟩ =
      { held_positions := [("A", ⟨5, 0, 1000, 1000 / 5⟩)], trades := [], cash := 0 } :=
  ⟨by norm_num,
    (entry_all_in_allocation.2.1 ⟨[], [], 1000⟩ ⟨0, "A", 1, 5⟩).1
      ⟨rfl, rfl, by norm_num⟩⟩
